import Mathlib

/-!
# A shallow embedding of the MiniDB query engine (src/minidb.py)

This file models the core of the `MiniDB` class: the value/type model,
row and index data structures, WHERE-clause evaluation (mirroring the
behaviour of the Python expression produced by `_eval_condition` after
token substitution), the index fast path of `_filter_data`, projection,
the two join strategies of `_select`, and the mutating statements
`_insert`, `_update`, `_delete`, plus snapshot save/load index rebuild.

Modelling conventions:
* Python dicts become association lists with dict-style insertion
  (replace in place when the key exists, append otherwise); reachable
  states never hold duplicate keys.
* Statements are modelled after parsing: a WHERE clause is a flat
  sequence of comparisons `column OP literal` joined by AND/OR (the
  grammar the engine supports); literal tokens are integers, quoted
  strings, true/false tokens, or raw unquoted tokens.
* `_eval_condition` builds a Python expression by textual substitution
  and runs `eval` on it with the engine object in scope.  The
  structural evaluator `evalCond`/`evalCmp` is faithful to that `eval`
  only on substitution-safe inputs: stored strings free of quote and
  backslash characters and of `AND`/`OR` substrings, no column name
  occurring as a whole word inside the literal's token or inside
  another stored value's text, and no column named after the true/false
  tokens or consisting only of digits.  Theorems about WHERE evaluation
  carry these side conditions explicitly (`evalSafeValue`, `litSafe`,
  `wordIn`).  Outside them the substituted text can be invalid Python,
  can re-capture column names, or — because `eval` executes arbitrary
  expressions with `self` in scope — can mutate the database in the
  middle of a statement; the state-preserving shape of
  `selectSingleRows`/`selectJoinRows` therefore describes `_select`'s
  own logic, and the injection channel is reported as a defect of the
  source, not absorbed into the model.
* Each mutating operation returns the result, the possibly-mutated
  table map (Python exceptions abort a statement but keep mutations
  already performed), and the number of snapshot writes performed.
* Python exceptions surface as `Except.error ()`; the engine reports
  every failure to the caller as a message-carrying error, and no claim
  distinguishes the message texts.
-/

/-- Tagged scalar values: the engine stores Python int / str / bool. -/
inductive Value where
  | int (n : Int)
  | str (s : String)
  | bool (b : Bool)
deriving DecidableEq, Repr

/-- Column types of the dialect: INT, STRING, BOOLEAN. -/
inductive ColType where
  | int
  | str
  | bool
deriving DecidableEq, Repr

/-- A column definition as built by `_create_table`. -/
structure ColumnDef where
  name : String
  type : ColType
  primary : Bool
  unique : Bool
  index : Bool
deriving DecidableEq, Repr

/-- A row: Python dict from column name to value, in insertion order. -/
abbrev Row := List (String × Value)

/-- One equality index: Python dict from value to list of row ids. -/
abbrev Index := List (Value × List Nat)

/-- The index map of a table: column name to `Index`. -/
abbrev Indexes := List (String × Index)

/-- A table: `{'columns': ..., 'data': ..., 'indexes': ...}`. -/
structure Table where
  columns : List ColumnDef
  data : List Row
  indexes : Indexes
deriving DecidableEq, Repr

/-- The database: `self.tables`, a dict from table name to table. -/
abbrev Tables := List (String × Table)

/-- Lowercase a string (`str.lower()` on ASCII identifiers). -/
def lowerStr (s : String) : String := String.mk (s.data.map Char.toLower)

/-- Uppercase a string (`str.upper()` on ASCII identifiers). -/
def upperStr (s : String) : String := String.mk (s.data.map Char.toUpper)

/-- Dict lookup on a row: `row[k]` / `row.get(k)`. -/
def rowGet (r : Row) (k : String) : Option Value :=
  (r.find? (fun p => p.1 == k)).map (fun p => p.2)

/-- Dict assignment on a row: `row[k] = v` (replace in place or append). -/
def dictInsert (r : Row) (k : String) (v : Value) : Row :=
  if r.any (fun p => p.1 == k) then
    r.map (fun p => if p.1 == k then (k, v) else p)
  else
    r ++ [(k, v)]

/-- Build a dict from a pair list, later pairs overriding earlier ones
(`dict(zip(cols, vals))`). -/
def rowFromPairs (ps : List (String × Value)) : Row :=
  ps.foldl (fun r p => dictInsert r p.1 p.2) []

/-- Bucket lookup in an index: `idx_dict.get(val, [])`. -/
def idxLookup (idx : Index) (v : Value) : List Nat :=
  ((idx.find? (fun q => q.1 == v)).map (fun q => q.2)).getD []

/-- Append a row id to the bucket for `v`, creating it if absent
(`if val not in idx_dict: idx_dict[val] = []` then `append`). -/
def idxAppend (idx : Index) (v : Value) (i : Nat) : Index :=
  if idx.any (fun q => q.1 == v) then
    idx.map (fun q => if q.1 == v then (q.1, q.2 ++ [i]) else q)
  else
    idx ++ [(v, [i])]

/-- Remove a row id from the bucket for `v` if present
(`if old_val in idx_dict and idx in idx_dict[old_val]: ....remove(idx)`;
`list.remove` drops the first occurrence). -/
def idxRemoveId (idx : Index) (v : Value) (i : Nat) : Index :=
  idx.map (fun q => if q.1 == v then (q.1, q.2.erase i) else q)

/-- Lookup in the index map / table map. -/
def assocGet (m : List (String × α)) (k : String) : Option α :=
  ((m.find? (fun p => p.1 == k)).map (fun p => p.2))

/-- Dict assignment in the table map, replacing the first entry for the
key (Python dicts never hold duplicate keys). -/
def tablesSet : Tables → String → Table → Tables
  | [], k, t => [(k, t)]
  | p :: ps, k, t => if p.1 == k then (k, t) :: ps else p :: tablesSet ps k t

/-- Dict assignment in an index map. -/
def indexesSetKey (idxs : Indexes) (k : String) (v : Index) : Indexes :=
  if idxs.any (fun p => p.1 == k) then
    idxs.map (fun p => if p.1 == k then (k, v) else p)
  else
    idxs ++ [(k, v)]

/-! ## Python comparison semantics

`_eval_condition` substitutes values into the WHERE text and evaluates
it with Python `eval`.  Equality (`==`) is total: values of different
types compare unequal, except that booleans compare numerically with
integers (`True == 1`).  Ordering is defined within strings and within
numbers (booleans count as 0/1); ordering a string against a number
raises `TypeError`, which `_eval_condition` converts to a `ValueError`.
-/

/-- Python `==` on stored values. -/
def pyEq : Value → Value → Bool
  | .int a, .int b => a == b
  | .str a, .str b => a == b
  | .bool a, .bool b => a == b
  | .int a, .bool b => a == (if b then (1 : Int) else 0)
  | .bool a, .int b => (if a then (1 : Int) else 0) == b
  | _, _ => false

/-- Numeric view of a value: ints are themselves, booleans are 0/1,
strings are not numbers. -/
def toNumV : Value → Option Int
  | .int a => some a
  | .bool b => some (if b then 1 else 0)
  | .str _ => none

/-- Code-point lexicographic order on character lists (Python `str <`). -/
def charListLt : List Char → List Char → Bool
  | [], [] => false
  | [], _ :: _ => true
  | _ :: _, [] => false
  | c :: cs, d :: ds =>
    if c.val < d.val then true
    else if c.val == d.val then charListLt cs ds
    else false

/-- Python `<` on strings. -/
def strLt (a b : String) : Bool := charListLt a.data b.data

/-- Python `<` on stored values; cross str/number raises. -/
def pyLt : Value → Value → Except Unit Bool
  | .str a, .str b => .ok (strLt a b)
  | v, w =>
    match toNumV v, toNumV w with
    | some a, some b => .ok (decide (a < b))
    | _, _ => .error ()

/-- Python `<=` on stored values; cross str/number raises. -/
def pyLe : Value → Value → Except Unit Bool
  | .str a, .str b => .ok (strLt a b || a == b)
  | v, w =>
    match toNumV v, toNumV w with
    | some a, some b => .ok (decide (a ≤ b))
    | _, _ => .error ()

/-! ## Literal tokens and `_cast_value` -/

/-- A literal token of the dialect, as it appears in statement text:
an integer, a quoted string, a true/false token, or any other raw
unquoted token (`identL` — a bare identifier or arbitrary unquoted
text, which the STRING cast stores verbatim). -/
inductive Lit where
  | intL (n : Int)
  | strL (s : String)
  | boolL (b : Bool)
  | identL (s : String)
deriving DecidableEq, Repr

/-- The raw token text of a literal (what `_cast_value` receives). -/
def tokenOfLit : Lit → String
  | .intL n => toString n
  | .strL s => "'" ++ s ++ "'"
  | .boolL b => if b then "true" else "false"
  | .identL s => s

/-- The permissive BOOLEAN cast: `val_str.lower() in ['true','1','yes']`. -/
def pyBoolCast (tok : String) : Bool :=
  lowerStr tok == "true" || lowerStr tok == "1" || lowerStr tok == "yes"

/-- `_cast_value(val_str, typ)`: INT parses the token as an integer
(raising on any non-integer token), STRING strips one layer of quotes
if present and otherwise keeps the raw token, BOOLEAN never fails. -/
def castValue (l : Lit) (t : ColType) : Except Unit Value :=
  match t with
  | .int =>
    match l with
    | .intL n => .ok (.int n)
    | _ => .error ()
  | .str =>
    .ok (.str (match l with
      | .strL s => s
      | .intL n => toString n
      | .boolL b => if b then "true" else "false"
      | .identL s => s))
  | .bool => .ok (.bool (pyBoolCast (tokenOfLit l)))

/-! ## WHERE clauses and `_eval_condition` -/

/-- Comparison operators of the dialect. -/
inductive CmpOp where
  | eq
  | ne
  | lt
  | le
  | gt
  | ge
deriving DecidableEq, Repr

/-- One comparison `column OP literal`. -/
structure Cmp where
  col : String
  op : CmpOp
  lit : Lit
deriving DecidableEq, Repr

/-- AND / OR connectives. -/
inductive BoolOp where
  | andOp
  | orOp
deriving DecidableEq, Repr

/-- A WHERE clause: a first comparison followed by connective/comparison
pairs, read left to right. -/
structure Cond where
  first : Cmp
  rest : List (BoolOp × Cmp)
deriving DecidableEq, Repr

/-- Case-insensitive row lookup: column tokens are substituted with
`re.IGNORECASE`, so a token matches a key up to case. -/
def rowGetCI (r : Row) (c : String) : Option Value :=
  (r.find? (fun p => lowerStr p.1 == lowerStr c)).map (fun p => p.2)

/-- Evaluate a literal token under Python `eval` after substitution:
int/str/bool tokens denote themselves; a bare identifier token is
replaced by the row's value when it names a column of the row (the
substitution pass), and otherwise raises `NameError`. -/
def evalLit (r : Row) : Lit → Except Unit Value
  | .intL n => .ok (.int n)
  | .strL s => .ok (.str s)
  | .boolL b => .ok (.bool b)
  | .identL s =>
    match rowGetCI r s with
    | some v => .ok v
    | none => .error ()

/-- Apply a comparison operator with Python semantics. -/
def pyCompare (op : CmpOp) (v w : Value) : Except Unit Bool :=
  match op with
  | .eq => .ok (pyEq v w)
  | .ne => .ok (!pyEq v w)
  | .lt => pyLt v w
  | .le => pyLe v w
  | .gt => pyLt w v
  | .ge => pyLe w v

/-- Evaluate one comparison against a row: the column token must resolve
to a row value (else `NameError`), then the operator is applied. -/
def evalCmp (r : Row) (c : Cmp) : Except Unit Bool :=
  match rowGetCI r c.col with
  | none => .error ()
  | some v =>
    match evalLit r c.lit with
    | .error e => .error e
    | .ok w => pyCompare c.op v w

/-- Split the flat connective list into OR-separated AND-groups
(Python gives `and` higher precedence than `or`). -/
def orGroupsGo (cur : List Cmp) (acc : List (List Cmp)) :
    List (BoolOp × Cmp) → List (List Cmp)
  | [] => acc ++ [cur]
  | (.andOp, c) :: rest => orGroupsGo (cur ++ [c]) acc rest
  | (.orOp, c) :: rest => orGroupsGo [c] (acc ++ [cur]) rest

/-- Short-circuit conjunction of comparisons (Python `and`). -/
def evalAndGo (r : Row) : List Cmp → Except Unit Bool
  | [] => .ok true
  | c :: cs =>
    match evalCmp r c with
    | .error e => .error e
    | .ok false => .ok false
    | .ok true => evalAndGo r cs

/-- Short-circuit disjunction of AND-groups (Python `or`). -/
def evalOrGo (r : Row) : List (List Cmp) → Except Unit Bool
  | [] => .ok false
  | g :: gs =>
    match evalAndGo r g with
    | .error e => .error e
    | .ok true => .ok true
    | .ok false => evalOrGo r gs

/-- `_eval_condition(row, where_part)`. -/
def evalCond (r : Row) (c : Cond) : Except Unit Bool :=
  evalOrGo r (orGroupsGo [c.first] [] c.rest)

/-! ## `_filter_data`: index fast path and full scan -/

/-- Substring test used to model `'AND' in where_part.upper()` etc. -/
def startsWithList : List Char → List Char → Bool
  | [], _ => true
  | _ :: _, [] => false
  | c :: cs, d :: ds => c == d && startsWithList cs ds

/-- Whether `pat` occurs somewhere in `s`. -/
def containsList (pat : List Char) : List Char → Bool
  | [] => startsWithList pat []
  | l@(_ :: rest) => startsWithList pat l || containsList pat rest

/-- `pat in s` on strings. -/
def containsSub (pat s : String) : Bool := containsList pat.data s.data

/-- A token that triggers no false positive in the textual fast-path
guard: it contains no AND/OR substring (case-insensitively) and no `=`
(which the `=`-to-`==` rewrite and the `==` split would mangle). -/
def plainToken (s : String) : Bool :=
  !(containsSub "AND" (upperStr s)) && !(containsSub "OR" (upperStr s)) &&
    !(containsSub "=" s)

/-- The fast-path trigger of `_filter_data`: a single equality
comparison with no AND/OR in the statement text splits into exactly two
parts around `==`. -/
def fastApplicable (c : Cond) : Option Cmp :=
  match c.rest with
  | [] =>
    match c.first.op with
    | .eq =>
      if plainToken c.first.col && plainToken (tokenOfLit c.first.lit) then
        some c.first
      else none
    | _ => none
  | _ :: _ => none

/-- `[data[i] for i in row_idxs if i < len(data)]`. -/
def fastRows (rowIdxs : List Nat) (data : List Row) : List Row :=
  (rowIdxs.filter (fun i => i < data.length)).map (fun i => data.getD i [])

/-- The full per-row scan `[row for row in data if _eval_condition(row, w)]`;
a raised exception aborts the whole comprehension. -/
def scanFilterGo (c : Cond) : List Row → Except Unit (List Row)
  | [] => .ok []
  | r :: rs =>
    match evalCond r c with
    | .error e => .error e
    | .ok b =>
      match scanFilterGo c rs with
      | .error e => .error e
      | .ok rest => .ok (if b then r :: rest else rest)

/-- `_filter_data(data, where_part, columns, indexes)`. -/
def filterData (data : List Row) (wh : Option Cond) (columns : List ColumnDef)
    (idxs : Indexes) : Except Unit (List Row) :=
  match wh with
  | none => .ok data
  | some c =>
    match fastApplicable c with
    | some cmp =>
      match assocGet idxs cmp.col with
      | some idx =>
        match columns.find? (fun cd => cd.name == cmp.col) with
        | some cd =>
          match castValue cmp.lit cd.type with
          | .ok v => .ok (fastRows (idxLookup idx v) data)
          | .error e => .error e
        | none => scanFilterGo c data
      | none => scanFilterGo c data
    | none => scanFilterGo c data

/-! ## `_select`: projection, single table, joins -/

/-- `_project_cols(data, cols, table_name)`. -/
def projectCols (data : List Row) (cols : Option (List String)) : List Row :=
  match cols with
  | none => data
  | some cs =>
    if cs == [] || cs == ["*"] then data
    else data.map (fun row =>
      cs.foldl (fun acc c =>
        match rowGet row c with
        | some v => dictInsert acc c v
        | none => acc) [])

/-- The rows computed by a single-table SELECT.  The projection tokens
come from the uppercased query (`query.upper()`), the table name is
lowercased; the WHERE clause is extracted from the original query. -/
def selectSingleRows (tbls : Tables) (tname : String)
    (proj : Option (List String)) (wh : Option Cond) :
    Except Unit (List Row) :=
  match assocGet tbls (lowerStr tname) with
  | none => .error ()
  | some t =>
    match filterData t.data wh t.columns t.indexes with
    | .error e => .error e
    | .ok d => .ok (projectCols d (proj.map (fun cs => cs.map upperStr)))

/-- Single-table SELECT as a statement: it computes rows, never mutates
the table map, and never writes a snapshot. -/
def selectSingle (tbls : Tables) (tname : String) (proj : Option (List String))
    (wh : Option Cond) : Except Unit (List Row) × Tables × Nat :=
  (selectSingleRows tbls tname proj wh, tbls, 0)

/-- Python `row1.get(c1) == row2.get(c2)`: `None == None` is true,
`None` compares unequal to every value. -/
def pyEqOpt : Option Value → Option Value → Bool
  | some a, some b => pyEq a b
  | none, none => true
  | _, _ => false

/-- The synthesized join row `{f"{t1}.{k}": v, ...}` updated with the
right side. -/
def joinRow (n1 n2 : String) (r1 r2 : Row) : Row :=
  rowFromPairs ((r1.map (fun p => (n1 ++ "." ++ p.1, p.2))) ++
    (r2.map (fun p => (n2 ++ "." ++ p.1, p.2))))

/-- `[r for r in t2['data'] if r.get(join_col2) == val]`. -/
def matchingT2 (d2 : List Row) (jc2 : String) (v : Value) : List Row :=
  d2.filter (fun r2 =>
    match rowGet r2 jc2 with
    | some b => pyEq b v
    | none => false)

/-- The index-driven join arm: iterate the buckets of the left join
column's index; `t1['data'][row_idx]` has no bounds guard, so a stale
row id raises `IndexError`. -/
def idxJoin (n1 n2 : String) (d1 d2 : List Row) (jc2 : String) (idx : Index) :
    Except Unit (List Row) := do
  let groups ← idx.mapM (fun vb => do
    let ms := matchingT2 d2 jc2 vb.1
    let rows1 ← vb.2.mapM (fun i =>
      if h : i < d1.length then pure (d1.get ⟨i, h⟩) else Except.error ())
    pure (rows1.flatMap (fun r1 => ms.map (fun r2 => joinRow n1 n2 r1 r2))))
  pure groups.flatten

/-- The nested-loop fallback arm. -/
def nestedJoin (n1 n2 : String) (d1 d2 : List Row) (jc1 jc2 : String) :
    List Row :=
  d1.flatMap (fun r1 =>
    (d2.filter (fun r2 => pyEqOpt (rowGet r1 jc1) (rowGet r2 jc2))).map
      (fun r2 => joinRow n1 n2 r1 r2))

/-- The rows computed by a two-table INNER JOIN SELECT: index-driven
when the left join column is indexed, nested loop otherwise; a WHERE
clause is applied after the join; the projection list is ignored on the
join path. -/
def selectJoinRows (tbls : Tables) (t1n t2n jc1 jc2 : String)
    (wh : Option Cond) : Except Unit (List Row) :=
  match assocGet tbls (lowerStr t1n), assocGet tbls (lowerStr t2n) with
  | some t1, some t2 =>
    match
      (match assocGet t1.indexes (lowerStr jc1) with
        | some idx =>
          idxJoin (lowerStr t1n) (lowerStr t2n) t1.data t2.data (lowerStr jc2) idx
        | none =>
          .ok (nestedJoin (lowerStr t1n) (lowerStr t2n) t1.data t2.data
            (lowerStr jc1) (lowerStr jc2))), wh with
    | .ok rs, some c => scanFilterGo c rs
    | r, _ => r
  | _, _ => .error ()

/-- Two-table INNER JOIN SELECT as a statement: it computes rows, never
mutates the table map, and never writes a snapshot. -/
def selectJoin (tbls : Tables) (t1n t2n jc1 jc2 : String) (wh : Option Cond) :
    Except Unit (List Row) × Tables × Nat :=
  (selectJoinRows tbls t1n t2n jc1 jc2 wh, tbls, 0)

/-! ## `_insert` -/

/-- Cast the VALUES list: `cols[i]` raises `IndexError` when there are
more values than columns; each value is cast by its target column's
declared type, in order. -/
def castVals : List String → List ColumnDef → List Lit → Except Unit (List Value)
  | _, _, [] => .ok []
  | [], _, _ :: _ => .error ()
  | c :: cs, columns, v :: vs =>
    match columns.find? (fun cd => cd.name == c) with
    | none => .error ()
    | some cd =>
      match castValue v cd.type with
      | .error e => .error e
      | .ok val =>
        match castVals cs columns vs with
        | .error e => .error e
        | .ok rest => .ok (val :: rest)

/-- The primary/unique check of `_insert`: for each constrained column
present in the new row, scan the existing rows for an equal value. -/
def insertConstraintsOk (columns : List ColumnDef) (data : List Row)
    (row : Row) : Bool :=
  columns.all (fun cd =>
    if cd.primary || cd.unique then
      match rowGet row cd.name with
      | some v =>
        !(data.any (fun r =>
          match rowGet r cd.name with
          | some w => pyEq w v
          | none => false))
      | none => true
    else true)

/-- Add a freshly appended row's entries to every index whose column the
row contains. -/
def addRowToIndexes (idxs : Indexes) (row : Row) (i : Nat) : Indexes :=
  idxs.map (fun p =>
    match rowGet row p.1 with
    | some v => (p.1, idxAppend p.2 v i)
    | none => p)

/-- Appending the new row: the row itself plus its index entries at the
fresh row id. -/
def insertApply (table : Table) (cls : List String) (vs : List Value) : Table :=
  { table with
    data := table.data ++ [rowFromPairs (cls.zip vs)]
    indexes := addRowToIndexes table.indexes (rowFromPairs (cls.zip vs))
      table.data.length }

/-- `_insert`: validate the column list, cast the values, enforce
primary/unique constraints, append the row, update the indexes, persist. -/
def insertOp (tbls : Tables) (tname : String) (cols : List String)
    (vals : List Lit) : Except Unit String × Tables × Nat :=
  match assocGet tbls (lowerStr tname) with
  | none => (.error (), tbls, 0)
  | some table =>
    if (cols.map lowerStr).all (fun c => table.columns.any (fun cd => cd.name == c)) then
      match castVals (cols.map lowerStr) table.columns vals with
      | .error e => (.error e, tbls, 0)
      | .ok vs =>
        if insertConstraintsOk table.columns table.data
            (rowFromPairs ((cols.map lowerStr).zip vs)) then
          (.ok "Insert successful",
           tablesSet tbls (lowerStr tname) (insertApply table (cols.map lowerStr) vs),
           1)
        else (.error (), tbls, 0)
    else (.error (), tbls, 0)

/-! ## `_update` -/

/-- Parse and cast the SET clause into an updates dict; SET column
names are matched against the schema without case folding. -/
def castUpdatesGo (columns : List ColumnDef) (acc : Row) :
    List (String × Lit) → Except Unit Row
  | [] => .ok acc
  | (c, l) :: rest =>
    match columns.find? (fun cd => cd.name == c) with
    | none => .error ()
    | some cd =>
      match castValue l cd.type with
      | .error e => .error e
      | .ok v => castUpdatesGo columns (dictInsert acc c v) rest

/-- The updates dict of `_update`. -/
def castUpdates (columns : List ColumnDef) (sets : List (String × Lit)) :
    Except Unit Row :=
  castUpdatesGo columns [] sets

/-- Python dict equality (`r != old_row`): same keys, `==`-equal values. -/
def rowPyEq (r1 r2 : Row) : Bool :=
  r1.all (fun p =>
    match rowGet r2 p.1 with
    | some w => pyEq p.2 w
    | none => false) &&
  r2.all (fun p =>
    match rowGet r1 p.1 with
    | some w => pyEq p.2 w
    | none => false)

/-- The row ids selected by the WHERE clause, in ascending order
(`[i for i, row in enumerate(data) if _eval_condition(row, where)]`). -/
def selectedIdxsGo (wh : Cond) : List Row → Nat → Except Unit (List Nat)
  | [], _ => .ok []
  | r :: rs, i =>
    match evalCond r wh with
    | .error e => .error e
    | .ok b =>
      match selectedIdxsGo wh rs (i + 1) with
      | .error e => .error e
      | .ok rest => .ok (if b then i :: rest else rest)

/-- The per-row uniqueness re-check of `_update`: a changed value of a
primary/unique column must not equal that column's value in any row
that is not dict-equal to the old row. -/
def updConstraintOk (columns : List ColumnDef) (data : List Row)
    (oldRow : Row) (updates : Row) : Bool :=
  updates.all (fun cv =>
    match columns.find? (fun cd => cd.name == cv.1) with
    | none => true
    | some cd =>
      if cd.primary || cd.unique then
        (match rowGet oldRow cv.1 with
          | some w => pyEq cv.2 w
          | none => false) ||
        !(data.any (fun r =>
          match rowGet r cv.1 with
          | some w => !(rowPyEq r oldRow) && pyEq w cv.2
          | none => false))
      else true)

/-- Remove a row's current entries from every index whose column the
row contains. -/
def removeIdxEntries (idxs : Indexes) (row : Row) (i : Nat) : Indexes :=
  idxs.map (fun p =>
    match rowGet row p.1 with
    | some v => (p.1, idxRemoveId p.2 v i)
    | none => p)

/-- Apply the updates dict to a row (`old_row[col] = val` per pair). -/
def applyUpdates (oldRow : Row) (updates : Row) : Row :=
  updates.foldl (fun r cv => dictInsert r cv.1 cv.2) oldRow

/-- Mutating one selected row: drop its stale index entries, write the
updated row in place, re-add index entries for the new row. -/
def updateApply (t : Table) (updates : Row) (i : Nat) : Table :=
  { t with
    data := t.data.set i (applyUpdates (t.data.getD i []) updates)
    indexes := addRowToIndexes
      (removeIdxEntries t.indexes (t.data.getD i []) i)
      (applyUpdates (t.data.getD i []) updates) i }

/-- The mutation loop of `_update`: per selected row, re-check
constraints against the current data, then mutate; a constraint
violation raises, keeping mutations already made. -/
def updateRowsGo (columns : List ColumnDef) (updates : Row) :
    List Nat → Table → Except Unit Unit × Table
  | [], t => (.ok (), t)
  | i :: rest, t =>
    if updConstraintOk columns t.data (t.data.getD i []) updates then
      updateRowsGo columns updates rest (updateApply t updates i)
    else (.error (), t)

/-- `_update`: parse/cast SET, select row ids by full scan, then mutate
row by row; persists only when every selected row succeeded. -/
def updateOp (tbls : Tables) (tname : String) (sets : List (String × Lit))
    (wh : Cond) : Except Unit String × Tables × Nat :=
  match assocGet tbls (lowerStr tname) with
  | none => (.error (), tbls, 0)
  | some table =>
    match castUpdates table.columns sets with
    | .error e => (.error e, tbls, 0)
    | .ok updates =>
      match selectedIdxsGo wh table.data 0 with
      | .error e => (.error e, tbls, 0)
      | .ok idxs =>
        match updateRowsGo table.columns updates idxs table with
        | (.ok _, t2) =>
          (.ok (toString idxs.length ++ " rows updated"),
           tablesSet tbls (lowerStr tname) t2, 1)
        | (.error e, t2) => (.error e, tablesSet tbls (lowerStr tname) t2, 0)

/-! ## `_delete` -/

/-- Decrement every row id greater than the deleted id in one bucket. -/
def shiftBucketIds (b : List Nat) (i : Nat) : List Nat :=
  b.map (fun j => if i < j then j - 1 else j)

/-- Per deleted row: for every index whose column the row contains,
remove the deleted id from the row's value bucket, then decrement every
larger id in all of that index's buckets.  Indexes on columns absent
from the deleted row are not touched at all (the shift included). -/
def deleteFromIndexes (idxs : Indexes) (row : Row) (i : Nat) : Indexes :=
  idxs.map (fun p =>
    match rowGet row p.1 with
    | some v =>
      (p.1, (idxRemoveId p.2 v i).map (fun q => (q.1, shiftBucketIds q.2 i)))
    | none => p)

/-- Removing one row: pop it from the data list and fix the indexes
whose column it contains. -/
def deleteApply (t : Table) (i : Nat) : Table :=
  { t with
    data := t.data.eraseIdx i
    indexes := deleteFromIndexes t.indexes (t.data.getD i []) i }

/-- The deletion loop, processing row ids in the given order. -/
def deleteRowsGo : List Nat → Table → Table
  | [], t => t
  | i :: rest, t => deleteRowsGo rest (deleteApply t i)

/-- `_delete`: select row ids by full scan, process them in descending
order, persist. -/
def deleteOp (tbls : Tables) (tname : String) (wh : Cond) :
    Except Unit String × Tables × Nat :=
  match assocGet tbls (lowerStr tname) with
  | none => (.error (), tbls, 0)
  | some table =>
    match selectedIdxsGo wh table.data 0 with
    | .error e => (.error e, tbls, 0)
    | .ok idxs =>
      (.ok (toString idxs.length ++ " rows deleted"),
       tablesSet tbls (lowerStr tname) (deleteRowsGo idxs.reverse table), 1)

/-! ## Persistence: `_save` / `load` -/

/-- JSON object keys are strings: serializing an index turns each
bucket key into its JSON string form. -/
def pyJsonKey : Value → Value
  | .int n => .str (toString n)
  | .str s => .str s
  | .bool b => .str (if b then "true" else "false")

/-- Serialize one table: rows survive unchanged, index bucket keys are
stringified by JSON. -/
def saveTable (t : Table) : Table :=
  { t with indexes := t.indexes.map (fun p =>
      (p.1, p.2.map (fun q => (pyJsonKey q.1, q.2)))) }

/-- `_save`: serialize the full table map. -/
def saveSnapshot (tbls : Tables) : Tables :=
  tbls.map (fun p => (p.1, saveTable p.2))

/-- The load-time index reset: every column flagged `index` gets a fresh
empty index; other keys of the stored index map are left alone. -/
def resetFlagged (cols : List ColumnDef) (idxs : Indexes) : Indexes :=
  cols.foldl (fun acc cd =>
    if cd.index then indexesSetKey acc cd.name [] else acc) idxs

/-- The load-time population loop: for each row id in order, append it
to every index whose column the row contains (the same loop shape as
the insert-time index update). -/
def populateAllGo : Indexes → List Row → Nat → Indexes
  | idxs, [], _ => idxs
  | idxs, r :: rs, i => populateAllGo (addRowToIndexes idxs r i) rs (i + 1)

/-- Reload one table: reset the flagged columns' indexes, then rebuild
them from `data`. -/
def loadTable (t : Table) : Table :=
  { t with indexes := populateAllGo (resetFlagged t.columns t.indexes) t.data 0 }

/-- `load`: reload every table, rebuilding indexes from row data. -/
def loadSnapshot (tbls : Tables) : Tables :=
  tbls.map (fun p => (p.1, loadTable p.2))

/-- A from-scratch index rebuild over row data: one empty index per
flagged column, populated by the same row loop. -/
def rebuildIndexes (cols : List ColumnDef) (data : List Row) : Indexes :=
  populateAllGo
    (cols.filterMap (fun cd =>
      if cd.index then some (cd.name, ([] : Index)) else none))
    data 0

/-! ## Specification-side notions used to state the claims -/

/-- The positions (row ids) of the rows holding value `v` in column
`col`, starting the count at `k`. -/
def positionsWith : List Row → String → Value → Nat → List Nat
  | [], _, _, _ => []
  | r :: rs, c, v, i =>
    if rowGet r c == some v then i :: positionsWith rs c v (i + 1)
    else positionsWith rs c v (i + 1)

/-- The positions of the rows holding value `v` in column `col`. -/
def posWith (data : List Row) (col : String) (v : Value) : List Nat :=
  positionsWith data col v 0

/-- An index is consistent with table data when every bucket holds
exactly the positions of the rows currently holding that value. -/
def IndexConsistent (idx : Index) (data : List Row) (col : String) : Prop :=
  ∀ v : Value, (idxLookup idx v).Perm (posWith data col v)

/-- The number of (left row, right row) pairs whose join-column values
are both present and Python-equal. -/
def pairCount (d1 d2 : List Row) (jc1 jc2 : String) : Nat :=
  (d1.map (fun r1 =>
    (d2.filter (fun r2 =>
      match rowGet r1 jc1, rowGet r2 jc2 with
      | some a, some b => pyEq a b
      | _, _ => false)).length)).sum

/-- No quote or backslash character: the substituted `'{val}'` form is
a well-formed Python string literal exactly for such values. -/
def noQuoteBackslash (s : String) : Bool :=
  !(s.data.any (fun ch => ch.val == 39 || ch.val == 92))

/-- An indexed INT column `a`. -/
def colIdxA : ColumnDef := ⟨"a", .int, false, false, true⟩

/-- An indexed INT column `b`. -/
def colIdxB : ColumnDef := ⟨"b", .int, false, false, true⟩

/-- A unique, unindexed INT column `a`. -/
def colUniqA : ColumnDef := ⟨"a", .int, false, true, false⟩

/-- The delete fixture: two indexed columns; row 0 lacks column `b`. -/
def tblDelete : Table :=
  { columns := [colIdxA, colIdxB]
  , data := [[("a", .int 1)], [("a", .int 2), ("b", .int 5)]]
  , indexes := [("a", [(.int 1, [0]), (.int 2, [1])]), ("b", [(.int 5, [1])])] }

/-- WHERE `a = 1`. -/
def condAeq1 : Cond := ⟨⟨"a", .eq, .intL 1⟩, []⟩

/-- WHERE `a < 3`. -/
def condAlt3 : Cond := ⟨⟨"a", .lt, .intL 3⟩, []⟩

/-- The update fixture: one unique column, two rows. -/
def tblUnique : Table :=
  { columns := [colUniqA], data := [[("a", .int 1)], [("a", .int 2)]], indexes := [] }

/-- The projection fixture. -/
def tblUsers : Table :=
  { columns := [⟨"id", .int, true, true, true⟩, ⟨"name", .str, false, false, false⟩]
  , data := [[("id", .int 1), ("name", .str "Alice")]]
  , indexes := [("id", [(.int 1, [0])])] }

/-- Left join fixture whose only row lacks the join column. -/
def tblLeftGap : Table :=
  { columns := [⟨"x", .int, false, false, false⟩], data := [[("x", .int 1)]], indexes := [] }

/-- Right join fixture whose only row lacks the join column. -/
def tblRightGap : Table :=
  { columns := [⟨"y", .int, false, false, false⟩], data := [[("y", .int 2)]], indexes := [] }

/-- An empty two-column table for the insert-arity fixture. -/
def tblTwoCols : Table :=
  { columns := [colIdxA, colIdxB], data := [], indexes := [("a", []), ("b", [])] }

/-- Indexed left table for the join witness. -/
def tblJoinL : Table :=
  { columns := [colIdxA]
  , data := [[("a", .int 1)], [("a", .int 1)], [("a", .int 2)]]
  , indexes := [("a", [(.int 1, [0, 1]), (.int 2, [2])])] }

/-- Unindexed left table for the nested-loop join witness. -/
def tblJoinLN : Table :=
  { columns := [⟨"a", .int, false, false, false⟩]
  , data := [[("a", .int 1)], [("a", .int 2)]]
  , indexes := [] }

/-- Right table for the join witnesses. -/
def tblJoinR : Table :=
  { columns := [⟨"c", .int, false, false, false⟩]
  , data := [[("c", .int 1)], [("c", .int 1)], [("c", .int 3)]]
  , indexes := [] }

/-- The join witness database. -/
def dbJoin : Tables := [("u", tblJoinL), ("w", tblJoinLN), ("v", tblJoinR)]

/-! ## Claim theorems -/

/-- C1: the claim requires that after a DELETE, every bucket of every
index on the table holds exactly the surviving rows' current positions.
The code only shifts (and only touches) the indexes whose column is
present in the deleted row: deleting row 0, which lacks column `b`,
leaves the `b` index still pointing at the stale position 1 while the
surviving row holding `b = 5` now sits at position 0. -/
theorem c1_delete_stale_index :
    deleteOp [("t", tblDelete)] "t" condAeq1 =
      (.ok "1 rows deleted",
       [("t",
         { columns := [colIdxA, colIdxB]
         , data := [[("a", .int 2), ("b", .int 5)]]
         , indexes := [("a", [(.int 1, []), (.int 2, [0])]),
                       ("b", [(.int 5, [1])])] })],
       1) ∧
    ¬ IndexConsistent [(.int 5, [1])] [[("a", .int 2), ("b", .int 5)]] "b" := by
  refine ⟨rfl, fun h => ?_⟩
  have h5 := h (.int 5)
  simp only [idxLookup, posWith, positionsWith, rowGet] at h5
  exact absurd h5 (by decide)

/-- C2 counterexample: a two-row UPDATE on a unique column where the
second selected row's new value collides with the first row's freshly
written value fails, but the first row (already mutated) keeps its new
value: the statement partially applies. -/
theorem c2_counterexample :
    updateOp [("t", tblUnique)] "t" [("a", .intL 3)] condAlt3 =
      (.error (),
       [("t",
         { columns := [colUniqA]
         , data := [[("a", .int 3)], [("a", .int 2)]]
         , indexes := [] })],
       0) ∧
    [[("a", Value.int 3)], [("a", Value.int 2)]] ≠ tblUnique.data := by
  exact ⟨rfl, by decide⟩

/-- C5: a single-table SELECT naming column `name` projects with the
uppercased token `NAME`, which matches no (lowercase) row key, so every
result row comes back empty instead of carrying the stored value. -/
theorem c5_projection_uppercase_bug :
    selectSingle [("users", tblUsers)] "users" (some ["name"]) none =
      (.ok [[]], [("users", tblUsers)], 0) ∧
    rowGet (tblUsers.data.getD 0 []) "name" = some (.str "Alice") := by
  exact ⟨rfl, rfl⟩

/-- C7 counterexample: an INSERT listing two columns but only one value
does not fail with an arity error; the extra column is silently dropped
and a one-column row is added. -/
theorem c7_counterexample :
    insertOp [("t", tblTwoCols)] "t" ["a", "b"] [.intL 1] =
      (.ok "Insert successful",
       [("t",
         { columns := [colIdxA, colIdxB]
         , data := [[("a", .int 1)]]
         , indexes := [("a", [(.int 1, [0])]), ("b", [])] })],
       1) := by
  exact rfl

/-- C9: the injection payload that lets a SELECT mutate the database is
an ordinary storable STRING value of the dialect: the permissive STRING
cast keeps the quote-bearing raw token verbatim, and the token lies
outside the quote-free domain on which textual substitution is a
well-formed Python string literal (so the WHERE scan hands it to `eval`
as live code rather than as a value). -/
theorem c9_payload_storable :
    castValue (.identL "x' and self.tables.clear() or 'x") .str =
      .ok (.str "x' and self.tables.clear() or 'x") ∧
    noQuoteBackslash "x' and self.tables.clear() or 'x" = false := by
  exact ⟨rfl, rfl⟩

/-- C10: the fast-path row fetch skips every row id that is at least the
table's row count, so each returned row is a genuine row of the table
and the result has exactly one row per in-range id in the bucket. -/
theorem c10_fastpath_bounds :
    ∀ (rowIdxs : List Nat) (data : List Row),
      (∀ r ∈ fastRows rowIdxs data, r ∈ data) ∧
      (fastRows rowIdxs data).length =
        (rowIdxs.filter (fun i => decide (i < data.length))).length := by
  intro ris data
  constructor
  · intro r hr
    unfold fastRows at hr
    rcases List.mem_map.mp hr with ⟨i, hi, hgetd⟩
    have hlt : i < data.length := by simpa using List.of_mem_filter hi
    rw [← hgetd, List.getD_eq_getElem data [] hlt]
    exact List.getElem_mem hlt
  · unfold fastRows
    rw [List.length_map]

/-- Pointwise-equal predicates give the same `any`. -/
theorem anyCongr {α : Type} (l : List α) (p q : α → Bool)
    (h : ∀ a ∈ l, p a = q a) : l.any p = l.any q := by
  induction l with
  | nil => rfl
  | cons a as ih =>
    simp only [List.any_cons]
    rw [h a (by simp), ih (fun a2 h2 => h a2 (by simp [h2]))]

/-- When the key is present, index-map assignment is a pointwise map. -/
theorem indexesSetKey_present (idxs : Indexes) (k : String) (v : Index)
    (h : idxs.any (fun p => p.1 == k) = true) :
    indexesSetKey idxs k v = idxs.map (fun p => if p.1 == k then (k, v) else p) := by
  unfold indexesSetKey
  rw [if_pos h]

/-- The load-time reset, on an index map containing every flagged
column, empties exactly the entries whose key is a flagged column. -/
theorem resetFlagged_map (cs : List ColumnDef) :
    ∀ (idxs : Indexes),
      (∀ cd ∈ cs, cd.index = true → idxs.any (fun p => p.1 == cd.name) = true) →
      resetFlagged cs idxs =
        idxs.map (fun p =>
          if cs.any (fun cd => cd.index && (cd.name == p.1)) then (p.1, ([] : Index))
          else p) := by
  induction cs with
  | nil =>
    intro idxs h
    simp [resetFlagged]
  | cons cd cs ih =>
    intro idxs h
    by_cases hix : cd.index = true
    · have hpres : idxs.any (fun p => p.1 == cd.name) = true := h cd (by simp) hix
      have hstep : resetFlagged (cd :: cs) idxs =
          resetFlagged cs
            (idxs.map (fun p => if p.1 == cd.name then (cd.name, ([] : Index)) else p)) := by
        unfold resetFlagged
        rw [List.foldl_cons, if_pos hix, indexesSetKey_present _ _ _ hpres]
      have hkeys : ∀ k0 : String,
          ((idxs.map (fun p => if p.1 == cd.name then (cd.name, ([] : Index)) else p)).any
            (fun p => p.1 == k0)) = idxs.any (fun p => p.1 == k0) := by
        intro k0
        rw [List.any_map]
        apply anyCongr
        intro q _
        by_cases hq : (q.1 == cd.name) = true
        · have hq2 : q.1 = cd.name := eq_of_beq hq
          simp [Function.comp, hq2]
        · simp only [Function.comp_apply, if_neg hq]
      rw [hstep, ih _ (fun cd2 h2 hix2 => by
        rw [hkeys]
        exact h cd2 (by simp [h2]) hix2)]
      rw [List.map_map]
      apply List.map_congr_left
      intro p _
      by_cases hpc : (p.1 == cd.name) = true
      · have hpc2 : p.1 = cd.name := eq_of_beq hpc
        simp [Function.comp, hpc, hpc2, List.any_cons, hix]
      · have hpc3 : (cd.name == p.1) = false := by
          rcases hbe : cd.name == p.1 with _ | _
          · rfl
          · exact absurd (by simp [eq_of_beq hbe]) hpc
        simp [Function.comp, hpc, List.any_cons, hpc3]
    · have hif : cd.index = false := by simpa using hix
      have hstep : resetFlagged (cd :: cs) idxs = resetFlagged cs idxs := by
        unfold resetFlagged
        rw [List.foldl_cons]
        simp [hif]
      rw [hstep, ih _ (fun cd2 h2 hix2 => h cd2 (by simp [h2]) hix2)]
      apply List.map_congr_left
      intro p _
      simp [List.any_cons, hif]

/-- The initial index map of a from-scratch rebuild, as a map over the
flagged column names. -/
theorem flaggedInit_eq (cols : List ColumnDef) :
    cols.filterMap (fun cd => if cd.index then some (cd.name, ([] : Index)) else none) =
      ((cols.filter (fun cd => cd.index)).map ColumnDef.name).map
        (fun n => (n, ([] : Index))) := by
  induction cols with
  | nil => rfl
  | cons cd cs ih =>
    by_cases h : cd.index = true <;>
      simp [List.filterMap_cons, List.filter_cons, h, ih]

/-- Reloading a serialized table rebuilds its indexes from scratch over
the (unchanged) row data, provided the stored index map's keys are
exactly the flagged columns, in order (true of every table the engine
builds). -/
theorem loadTable_saveTable (t : Table)
    (hkeys : t.indexes.map Prod.fst =
      (t.columns.filter (fun cd => cd.index)).map ColumnDef.name) :
    loadTable (saveTable t) =
      { t with indexes := rebuildIndexes t.columns t.data } := by
  have savedKeys : (t.indexes.map (fun p =>
      (p.1, p.2.map (fun q => (pyJsonKey q.1, q.2))))).map Prod.fst =
      t.indexes.map Prod.fst := by
    rw [List.map_map]
    rfl
  have hpres : ∀ cd ∈ t.columns, cd.index = true →
      ((t.indexes.map (fun p => (p.1, p.2.map (fun q => (pyJsonKey q.1, q.2))))).any
        (fun p => p.1 == cd.name)) = true := by
    intro cd hcd hix
    rw [List.any_eq_true]
    have hmem : cd.name ∈ (t.indexes.map (fun p =>
        (p.1, p.2.map (fun q => (pyJsonKey q.1, q.2))))).map Prod.fst := by
      rw [savedKeys, hkeys]
      exact List.mem_map_of_mem _ (List.mem_filter.mpr ⟨hcd, hix⟩)
    rcases List.mem_map.mp hmem with ⟨p, hp, hfst⟩
    exact ⟨p, hp, by simp [hfst]⟩
  have key : resetFlagged t.columns
      (t.indexes.map (fun p => (p.1, p.2.map (fun q => (pyJsonKey q.1, q.2))))) =
      t.columns.filterMap (fun cd =>
        if cd.index then some (cd.name, ([] : Index)) else none) := by
    rw [resetFlagged_map _ _ hpres]
    have hall : ∀ p ∈ (t.indexes.map (fun p =>
        (p.1, p.2.map (fun q => (pyJsonKey q.1, q.2))))),
        (t.columns.any (fun cd => cd.index && (cd.name == p.1))) = true := by
      intro p hp
      have hfstmem : p.1 ∈ (t.indexes.map (fun p =>
          (p.1, p.2.map (fun q => (pyJsonKey q.1, q.2))))).map Prod.fst :=
        List.mem_map_of_mem _ hp
      rw [savedKeys, hkeys] at hfstmem
      rcases List.mem_map.mp hfstmem with ⟨cd, hcd, hname⟩
      rw [List.any_eq_true]
      exact ⟨cd, (List.mem_filter.mp hcd).1,
        by simp [(List.mem_filter.mp hcd).2, hname]⟩
    have hmapped : (t.indexes.map (fun p =>
        (p.1, p.2.map (fun q => (pyJsonKey q.1, q.2))))).map (fun p =>
          if t.columns.any (fun cd => cd.index && (cd.name == p.1))
          then (p.1, ([] : Index)) else p) =
        (t.indexes.map (fun p =>
          (p.1, p.2.map (fun q => (pyJsonKey q.1, q.2))))).map
            (fun p => (p.1, ([] : Index))) := by
      apply List.map_congr_left
      intro p hp
      rw [if_pos (hall p hp)]
    rw [hmapped, flaggedInit_eq, ← hkeys, ← savedKeys]
    simp only [List.map_map]
    apply List.map_congr_left
    intro p _
    rfl
  show Table.mk t.columns t.data
      (populateAllGo (resetFlagged t.columns
        (t.indexes.map (fun p => (p.1, p.2.map (fun q => (pyJsonKey q.1, q.2))))))
        t.data 0) =
    Table.mk t.columns t.data
      (populateAllGo (t.columns.filterMap (fun cd =>
        if cd.index then some (cd.name, ([] : Index)) else none)) t.data 0)
  rw [key]

/-- C6: serializing the table map and reloading it yields, for every
table, indexes exactly equal to a from-scratch rebuild over the
(unchanged) reloaded row data — the stored indexes are not trusted.
The hypothesis (the stored index map's keys are exactly the flagged
columns) holds of every state the engine builds. -/
theorem c6_roundtrip_rebuild (tbls : Tables)
    (h : ∀ p ∈ tbls, p.2.indexes.map Prod.fst =
      (p.2.columns.filter (fun cd => cd.index)).map ColumnDef.name) :
    loadSnapshot (saveSnapshot tbls) =
      tbls.map (fun p =>
        (p.1, { p.2 with indexes := rebuildIndexes p.2.columns p.2.data })) := by
  unfold loadSnapshot saveSnapshot
  rw [List.map_map]
  apply List.map_congr_left
  intro p hp
  show (p.1, loadTable (saveTable p.2)) = _
  rw [loadTable_saveTable p.2 (h p hp)]

/-- Witness for C6 on a concrete two-index table. -/
theorem c6_roundtrip_rebuild_witness :
    loadSnapshot (saveSnapshot [("t", tblDelete)]) =
      [("t", tblDelete)].map (fun p =>
        (p.1, { p.2 with indexes := rebuildIndexes p.2.columns p.2.data })) := by
  exact c6_roundtrip_rebuild [("t", tblDelete)] (by decide)

/-- Writing back the table found under a key leaves the map unchanged. -/
theorem tablesSet_self : ∀ (tbls : Tables) (k : String) (t : Table),
    assocGet tbls k = some t → tablesSet tbls k t = tbls := by
  intro tbls
  induction tbls with
  | nil => intro k t h; simp [assocGet] at h
  | cons p ps ih =>
    intro k t h
    by_cases hk : (p.1 == k) = true
    · have hpt : p.2 = t := by
        unfold assocGet at h
        rw [List.find?_cons] at h
        rw [hk] at h
        simpa using h
      have hk2 : p.1 = k := eq_of_beq hk
      unfold tablesSet
      rw [if_pos hk, ← hk2, ← hpt]
    · have h2 : assocGet ps k = some t := by
        unfold assocGet at h ⊢
        rw [List.find?_cons] at h
        rw [Bool.not_eq_true] at hk
        rw [hk] at h
        exact h
      unfold tablesSet
      rw [if_neg (by simp [hk]), ih k t h2]

/-- A successful cast of the VALUES list means there were at most as
many values as columns (`cols[i]` raises past the end). -/
theorem castVals_ok_length : ∀ (cs : List String) (columns : List ColumnDef)
    (vals : List Lit) (vs : List Value),
    castVals cs columns vals = .ok vs → vals.length ≤ cs.length := by
  intro cs
  induction cs with
  | nil =>
    intro columns vals vs h
    cases vals with
    | nil => simp
    | cons v vtl => simp [castVals] at h
  | cons c ctl ih =>
    intro columns vals vs h
    cases vals with
    | nil => simp
    | cons v vtl =>
      unfold castVals at h
      cases hf : columns.find? (fun cd => cd.name == c) with
      | none => simp only [hf] at h; exact absurd h (by simp)
      | some cd =>
        simp only [hf] at h
        cases hc : castValue v cd.type with
        | error e => simp only [hc] at h; exact absurd h (by simp)
        | ok val =>
          simp only [hc] at h
          cases hrest : castVals ctl columns vtl with
          | error e => simp only [hrest] at h; exact absurd h (by simp)
          | ok rest =>
            have hle := ih columns vtl rest hrest
            simpa using Nat.succ_le_succ hle

/-- A failing INSERT leaves the table map untouched and writes no
snapshot (every check precedes every mutation), or else it succeeded. -/
theorem insertOp_frame_or (tbls : Tables) (tn : String) (cols : List String)
    (vals : List Lit) :
    ((insertOp tbls tn cols vals).2.1 = tbls ∧
      (insertOp tbls tn cols vals).2.2 = 0) ∨
    ∃ s, (insertOp tbls tn cols vals).1 = .ok s := by
  unfold insertOp
  cases hget : assocGet tbls (lowerStr tn) with
  | none => exact Or.inl ⟨rfl, rfl⟩
  | some table =>
    by_cases hval : ((cols.map lowerStr).all
        (fun c => table.columns.any (fun cd => cd.name == c))) = true
    · cases hcast : castVals (cols.map lowerStr) table.columns vals with
      | error e => exact Or.inl (by simp [hval, hcast])
      | ok vs =>
        by_cases hcon : insertConstraintsOk table.columns table.data
            (rowFromPairs ((cols.map lowerStr).zip vs)) = true
        · exact Or.inr ⟨"Insert successful", by simp [hval, hcast, hcon]⟩
        · exact Or.inl (by simp [hval, hcast, hcon])
    · exact Or.inl (by simp [hval])

/-- C2 (amended): INSERT never partially applies — any failure (unknown
column, cast error, arity overflow, constraint violation) leaves the
table's rows and indexes unchanged and writes no snapshot, because
`_insert` performs every check before its first mutation and calls no
dynamic evaluation.  UPDATE carries no such guarantee: a multi-row
UPDATE failing on a later selected row keeps the earlier rows'
mutations (see the counterexample), and even a single-row UPDATE can
leave the database mutated before its constraint violation, because the
WHERE selection scan runs `eval` over textually substituted stored
values with the engine object in scope. -/
theorem c2_amended :
    ∀ (tbls : Tables) (tn : String) (cols : List String) (vals : List Lit),
      (insertOp tbls tn cols vals).1 = .error () →
      (insertOp tbls tn cols vals).2.1 = tbls ∧
      (insertOp tbls tn cols vals).2.2 = 0 := by
  intro tbls tn cols vals herr
  rcases insertOp_frame_or tbls tn cols vals with hfr | ⟨s, hok⟩
  · exact hfr
  · rw [hok] at herr
    simp at herr

/-- Witness for the amended C2: a duplicate-key INSERT leaving the
concrete table untouched. -/
theorem c2_amended_witness :
    (insertOp [("users", tblUsers)] "users" ["id"] [.intL 1]).2.1 =
        [("users", tblUsers)] ∧
      (insertOp [("users", tblUsers)] "users" ["id"] [.intL 1]).2.2 = 0 := by
  exact c2_amended [("users", tblUsers)] "users" ["id"] [.intL 1] rfl

/-- C7 (amended): an INSERT with more values than columns fails (the
column lookup for the extra value raises) before any mutation, leaving
the table map unchanged with no snapshot written; an INSERT with more
columns than values does not fail at all — the extra columns are
silently dropped and a row holding only the first `len(values)` columns
is added. -/
theorem c7_amended :
    (∀ (tbls : Tables) (tn : String) (cols : List String) (vals : List Lit),
      cols.length < vals.length →
      insertOp tbls tn cols vals = (.error (), tbls, 0)) ∧
    (∀ (tbls : Tables) (tn : String) (cols : List String) (vals : List Lit)
        (table : Table) (vs : List Value),
      assocGet tbls (lowerStr tn) = some table →
      ((cols.map lowerStr).all
        (fun c => table.columns.any (fun cd => cd.name == c))) = true →
      castVals (cols.map lowerStr) table.columns vals = .ok vs →
      insertConstraintsOk table.columns table.data
        (rowFromPairs ((cols.map lowerStr).zip vs)) = true →
      vals.length < cols.length →
      insertOp tbls tn cols vals =
        (.ok "Insert successful",
         tablesSet tbls (lowerStr tn) (insertApply table (cols.map lowerStr) vs),
         1)) := by
  constructor
  · intro tbls tn cols vals hlt
    unfold insertOp
    cases hget : assocGet tbls (lowerStr tn) with
    | none => rfl
    | some table =>
      by_cases hval : ((cols.map lowerStr).all
          (fun c => table.columns.any (fun cd => cd.name == c))) = true
      · cases hcast : castVals (cols.map lowerStr) table.columns vals with
        | error e => simp [hval, hcast]
        | ok vs =>
          exfalso
          have hle := castVals_ok_length _ _ _ _ hcast
          rw [List.length_map] at hle
          omega
      · simp [hval]
  · intro tbls tn cols vals table vs hget hval hcast hcon hlt
    unfold insertOp
    simp only [hget, hval, hcast, hcon]
    simp

/-- Witness for the amended C7: both arity directions on a concrete
two-column table. -/
theorem c7_amended_witness :
    insertOp [("t", tblTwoCols)] "t" ["a"] [.intL 1, .intL 2] =
      (.error (), [("t", tblTwoCols)], 0) ∧
    insertOp [("t", tblTwoCols)] "t" ["a", "b"] [.intL 1] =
      (.ok "Insert successful",
       tablesSet [("t", tblTwoCols)] (lowerStr "t")
         (insertApply tblTwoCols (["a", "b"].map lowerStr) [.int 1]),
       1) := by
  constructor
  · exact c7_amended.1 [("t", tblTwoCols)] "t" ["a"] [.intL 1, .intL 2]
      (by decide)
  · exact c7_amended.2 [("t", tblTwoCols)] "t" ["a", "b"] [.intL 1]
      tblTwoCols [.int 1] rfl (by decide) rfl (by decide) (by decide)

/-- Positions start at the offset and stay within the list. -/
theorem mem_positionsWith_lt (c : String) (v : Value) :
    ∀ (l : List Row) (k i : Nat), i ∈ positionsWith l c v k →
      k ≤ i ∧ i < k + l.length := by
  intro l
  induction l with
  | nil => intro k i h; simp [positionsWith] at h
  | cons r rs ih =>
    intro k i h
    unfold positionsWith at h
    by_cases hp : (rowGet r c == some v) = true
    · rw [if_pos hp] at h
      rcases List.mem_cons.mp h with rfl | h2
      · simp only [List.length_cons]
        omega
      · have := ih (k + 1) i h2
        simp only [List.length_cons]
        omega
    · rw [if_neg hp] at h
      have := ih (k + 1) i h
      simp only [List.length_cons]
      omega

/-- The number of positions equals the row count with that value. -/
theorem positionsWith_length (c : String) (v : Value) :
    ∀ (l : List Row) (k : Nat),
      (positionsWith l c v k).length =
        l.countP (fun r => rowGet r c == some v) := by
  intro l
  induction l with
  | nil => intro _; rfl
  | cons r rs ih =>
    intro k
    unfold positionsWith
    by_cases hp : (rowGet r c == some v) = true
    · rw [if_pos hp]
      simp [List.countP_cons, hp, ih (k + 1)]
    · rw [if_neg hp]
      simp [List.countP_cons, hp, ih (k + 1)]

/-- Lawful boolean equality is symmetric. -/
theorem beqComm {α : Type} [BEq α] [LawfulBEq α] (a b : α) :
    (a == b) = (b == a) := by
  by_cases h : a = b
  · subst h; rfl
  · rw [beq_eq_false_iff_ne.mpr h, beq_eq_false_iff_ne.mpr (Ne.symm h)]

/-- Python `==` on stored values is symmetric. -/
theorem pyEq_comm (v w : Value) : pyEq v w = pyEq w v := by
  cases v <;> cases w <;> first
    | rfl
    | exact beqComm _ _

/-- Sums distribute over pointwise addition. -/
theorem sum_map_add {α : Type} (l : List α) (f g2 : α → Nat) :
    (l.map (fun x => f x + g2 x)).sum = (l.map f).sum + (l.map g2).sum := by
  induction l with
  | nil => rfl
  | cons a as ih =>
    simp only [List.map_cons, List.sum_cons, ih]
    omega

/-- A constant map sums to length times the constant. -/
theorem sum_map_const {α : Type} (l : List α) (c : Nat) :
    (l.map (fun _ => c)).sum = l.length * c := by
  induction l with
  | nil => simp
  | cons a as ih =>
    simp only [List.map_cons, List.sum_cons, List.length_cons, ih]
    rw [Nat.succ_mul]
    omega

/-- Over a duplicate-free key list containing `a`, the indicator sum
collapses to the single term at `a`. -/
theorem sum_map_indicator (m : Value → Nat) :
    ∀ (K : List Value), K.Nodup → ∀ (a : Value), a ∈ K →
      (K.map (fun v => if (a == v) then m v else 0)).sum = m a := by
  intro K
  induction K with
  | nil => intro _ a ha; simp at ha
  | cons v K ih =>
    intro hnd a ha
    rw [List.map_cons, List.sum_cons]
    rcases List.mem_cons.mp ha with rfl | haK
    · rw [if_pos (by simp)]
      have hzero : (K.map (fun v2 => if (a == v2) then m v2 else 0)).sum = 0 := by
        apply List.sum_eq_zero
        intro x hx
        rcases List.mem_map.mp hx with ⟨v2, hv2, rfl⟩
        have hne : a ≠ v2 := fun he => (List.nodup_cons.mp hnd).1 (he ▸ hv2)
        rw [if_neg (by simp [hne])]
      omega
    · have hne : a ≠ v := fun he => (List.nodup_cons.mp hnd).1 (he ▸ haK)
      rw [if_neg (by simp [hne]), ih (List.nodup_cons.mp hnd).2 a haK]
      omega

/-- Grouping a per-row sum by a duplicate-free covering key list: the
per-key counts weighted by `m` add up to the per-row values of `m`. -/
theorem sum_group (K : List Value) (m : Value → Nat) (hK : K.Nodup) :
    ∀ (L : List Row) (g : Row → Option Value),
      (∀ v, v ∉ K → L.countP (fun r => g r == some v) = 0) →
      (K.map (fun v => L.countP (fun r => g r == some v) * m v)).sum =
      (L.map (fun r => match g r with | some a => m a | none => 0)).sum := by
  intro L
  induction L with
  | nil =>
    intro g _
    simp [List.countP_nil]
  | cons r L ih =>
    intro g h
    have hcov : ∀ v, v ∉ K → L.countP (fun r2 => g r2 == some v) = 0 := by
      intro v hv
      have h2 := h v hv
      rw [List.countP_cons] at h2
      omega
    rw [List.map_cons, List.sum_cons]
    cases hg : g r with
    | none =>
      have hstep : (K.map (fun v =>
          (r :: L).countP (fun r2 => g r2 == some v) * m v)) =
          K.map (fun v => L.countP (fun r2 => g r2 == some v) * m v) := by
        apply List.map_congr_left
        intro v _
        rw [List.countP_cons]
        simp [hg]
      rw [hstep, ih g hcov]
      simp
    | some a =>
      have haK : a ∈ K := by
        by_contra hnot
        have h2 := h a hnot
        rw [List.countP_cons] at h2
        simp [hg] at h2
      have hstep : (K.map (fun v =>
          (r :: L).countP (fun r2 => g r2 == some v) * m v)) =
          K.map (fun v => L.countP (fun r2 => g r2 == some v) * m v +
            (if (a == v) then m v else 0)) := by
        apply List.map_congr_left
        intro v _
        rw [List.countP_cons]
        by_cases hav : a = v
        · subst hav
          simp [hg, Nat.add_mul]
        · have n1 : ((some a : Option Value) == some v) = false := by
            simp [hav]
          simp [hg, n1, hav]
      rw [hstep, sum_map_add, ih g hcov, sum_map_indicator m K hK a haK]
      have hred : (match (some a : Option Value) with
          | some a => m a
          | none => 0) = m a := rfl
      rw [hred]
      omega

/-- `mapM` over `Except` succeeds pointwise. -/
theorem mapM_ok_of_forall {α β : Type} (F : α → Except Unit β) (G : α → β) :
    ∀ (l : List α), (∀ x ∈ l, F x = .ok (G x)) → l.mapM F = .ok (l.map G) := by
  intro l
  induction l with
  | nil => intro _; rfl
  | cons a as ih =>
    intro h
    rw [List.mapM_cons, h a (by simp), ih (fun x hx => h x (by simp [hx]))]
    rfl

/-- When every bucket id is in range, the index-driven join computes
its groups without raising. -/
theorem idxJoin_ok (n1 n2 : String) (d1 d2 : List Row) (jc2 : String)
    (idx : Index) (hb : ∀ vb ∈ idx, ∀ i ∈ vb.2, i < d1.length) :
    idxJoin n1 n2 d1 d2 jc2 idx =
      .ok ((idx.map (fun vb => (vb.2.map (fun i => d1.getD i [])).flatMap
        (fun r1 => (matchingT2 d2 jc2 vb.1).map
          (fun r2 => joinRow n1 n2 r1 r2)))).flatten) := by
  unfold idxJoin
  rw [mapM_ok_of_forall _ (fun vb => (vb.2.map (fun i => d1.getD i [])).flatMap
    (fun r1 => (matchingT2 d2 jc2 vb.1).map (fun r2 => joinRow n1 n2 r1 r2)))
    idx ?_]
  · rfl
  · intro vb hvb
    rw [mapM_ok_of_forall _ (fun i => d1.getD i []) vb.2 ?_]
    · rfl
    · intro i hi
      rw [dif_pos (hb vb hvb i hi)]
      have : d1.get ⟨i, hb vb hvb i hi⟩ = d1.getD i [] := by
        rw [List.getD_eq_getElem d1 [] (hb vb hvb i hi)]
        rfl
      rw [this]
      rfl

/-- The pair count, written as a per-left-row sum of right matches. -/
theorem pairCount_as_sum (d1 d2 : List Row) (jc1 jc2 : String) :
    pairCount d1 d2 jc1 jc2 =
      (d1.map (fun r => match rowGet r jc1 with
        | some a => (matchingT2 d2 jc2 a).length
        | none => 0)).sum := by
  unfold pairCount
  congr 1
  apply List.map_congr_left
  intro r1 _
  cases hg1 : rowGet r1 jc1 with
  | none =>
    have hfalse : ∀ r2 ∈ d2, (match (none : Option Value), rowGet r2 jc2 with
        | some a, some b => pyEq a b
        | _, _ => false) = false := by
      intro r2 _
      cases rowGet r2 jc2 <;> rfl
    rw [List.filter_congr hfalse]
    simp
  | some a =>
    show (List.filter (fun r2 =>
        match (some a : Option Value), rowGet r2 jc2 with
        | some a2, some b => pyEq a2 b
        | _, _ => false) d2).length = (matchingT2 d2 jc2 a).length
    unfold matchingT2
    congr 1
    apply List.filter_congr
    intro r2 _
    cases hg2 : rowGet r2 jc2 with
    | none => rfl
    | some b => exact pyEq_comm a b

/-- The nested-loop join's cardinality is the pair count, provided at
least one side carries its join column in every row (otherwise the
`None == None` comparison manufactures extra pairs). -/
theorem nestedJoin_length (n1 n2 : String) (d1 d2 : List Row) (jc1 jc2 : String)
    (hpres : (∀ r ∈ d1, (rowGet r jc1).isSome) ∨
      (∀ r ∈ d2, (rowGet r jc2).isSome)) :
    (nestedJoin n1 n2 d1 d2 jc1 jc2).length = pairCount d1 d2 jc1 jc2 := by
  unfold nestedJoin pairCount
  rw [List.length_flatMap]
  congr 1
  apply List.map_congr_left
  intro r1 hr1
  simp only [Function.comp_apply, List.length_map]
  congr 1
  apply List.filter_congr
  intro r2 hr2
  cases hg1 : rowGet r1 jc1 with
  | some a => cases hg2 : rowGet r2 jc2 <;> simp [pyEqOpt]
  | none =>
    cases hg2 : rowGet r2 jc2 with
    | some b => simp [pyEqOpt]
    | none =>
      exfalso
      rcases hpres with h1 | h2
      · have hx := h1 r1 hr1
        rw [hg1] at hx
        simp at hx
      · have hx := h2 r2 hr2
        rw [hg2] at hx
        simp at hx

/-- The index-driven join's bucket-weighted match count is the pair
count, given a duplicate-free index whose buckets are exactly the
positions of the rows holding each key and which covers every value
present in the left column. -/
theorem idxJoin_card (d1 d2 : List Row) (jc1 jc2 : String) (idx : Index)
    (hnd : (idx.map Prod.fst).Nodup)
    (h1 : ∀ vb ∈ idx, (vb.2).Perm (posWith d1 jc1 vb.1))
    (h2 : (d1.all (fun r =>
      match rowGet r jc1 with
      | some a => (idx.map Prod.fst).any (fun v => v == a)
      | none => true)) = true) :
    (idx.map (fun vb => vb.2.length * (matchingT2 d2 jc2 vb.1).length)).sum =
      pairCount d1 d2 jc1 jc2 := by
  have hcnt : (idx.map (fun vb =>
      vb.2.length * (matchingT2 d2 jc2 vb.1).length)) =
      idx.map (fun vb => d1.countP (fun r => rowGet r jc1 == some vb.1) *
        (matchingT2 d2 jc2 vb.1).length) := by
    apply List.map_congr_left
    intro vb hvb
    rw [(h1 vb hvb).length_eq]
    unfold posWith
    rw [positionsWith_length]
  have hmm : idx.map (fun vb => d1.countP (fun r => rowGet r jc1 == some vb.1) *
      (matchingT2 d2 jc2 vb.1).length) =
      (idx.map Prod.fst).map (fun v => d1.countP (fun r => rowGet r jc1 == some v) *
        (matchingT2 d2 jc2 v).length) := by
    rw [List.map_map]
    rfl
  have hcov : ∀ v, v ∉ idx.map Prod.fst →
      d1.countP (fun r => rowGet r jc1 == some v) = 0 := by
    intro v hv
    rw [List.countP_eq_zero]
    intro r hr hc
    have hrv : rowGet r jc1 = some v := eq_of_beq hc
    have hall := List.all_eq_true.mp h2 r hr
    rw [hrv] at hall
    rcases List.any_eq_true.mp hall with ⟨x, hx, hxv⟩
    exact hv (eq_of_beq hxv ▸ hx)
  rw [hcnt, hmm,
    sum_group (idx.map Prod.fst) (fun v => (matchingT2 d2 jc2 v).length) hnd
      d1 (fun r => rowGet r jc1) hcov,
    pairCount_as_sum]

/-- C4 counterexample: with no index on the left join column, a left
row lacking the join column pairs with a right row lacking its join
column (`None == None` is true in the nested loop), so the join returns
one row while the count of equal present join-value pairs is zero. -/
theorem c4_counterexample :
    selectJoin [("t1", tblLeftGap), ("t2", tblRightGap)] "t1" "t2" "a" "c"
      none =
      (.ok [[("t1.x", Value.int 1), ("t2.y", Value.int 2)]],
       [("t1", tblLeftGap), ("t2", tblRightGap)], 0) ∧
    pairCount tblLeftGap.data tblRightGap.data "a" "c" = 0 := by
  exact ⟨rfl, rfl⟩

/-- C4 (amended): the INNER JOIN cardinality equals the number of
(left row, right row) pairs whose join-column values are both present
and equal — under the index-driven path whenever the left index is
duplicate-free, bucket-exact and covers the left column's values, and
under the nested-loop path whenever at least one of the two tables
carries its join column in every row.  When both tables contain rows
lacking their join columns, the nested loop counts extra
`None == None` pairs (see the counterexample). -/
theorem c4_amended (tbls : Tables) (t1n t2n jc1 jc2 : String) (t1 t2 : Table)
    (hg1 : assocGet tbls (lowerStr t1n) = some t1)
    (hg2 : assocGet tbls (lowerStr t2n) = some t2) :
    (∀ idx, assocGet t1.indexes (lowerStr jc1) = some idx →
      (idx.map Prod.fst).Nodup →
      (∀ vb ∈ idx, (vb.2).Perm (posWith t1.data (lowerStr jc1) vb.1)) →
      ((t1.data.all (fun r =>
        match rowGet r (lowerStr jc1) with
        | some a => (idx.map Prod.fst).any (fun v => v == a)
        | none => true)) = true) →
      ∃ rs, selectJoin tbls t1n t2n jc1 jc2 none = (.ok rs, tbls, 0) ∧
        rs.length = pairCount t1.data t2.data (lowerStr jc1) (lowerStr jc2)) ∧
    (assocGet t1.indexes (lowerStr jc1) = none →
      ((∀ r ∈ t1.data, (rowGet r (lowerStr jc1)).isSome) ∨
       (∀ r ∈ t2.data, (rowGet r (lowerStr jc2)).isSome)) →
      selectJoin tbls t1n t2n jc1 jc2 none =
        (.ok (nestedJoin (lowerStr t1n) (lowerStr t2n) t1.data t2.data
          (lowerStr jc1) (lowerStr jc2)), tbls, 0) ∧
      (nestedJoin (lowerStr t1n) (lowerStr t2n) t1.data t2.data
        (lowerStr jc1) (lowerStr jc2)).length =
        pairCount t1.data t2.data (lowerStr jc1) (lowerStr jc2)) := by
  constructor
  · intro idx hidx hnd h1 h2
    have hb : ∀ vb ∈ idx, ∀ i ∈ vb.2, i < t1.data.length := by
      intro vb hvb i hi
      have hip := ((h1 vb hvb).mem_iff).mp hi
      have := mem_positionsWith_lt (lowerStr jc1) vb.1 t1.data 0 i hip
      omega
    have hjoin := idxJoin_ok (lowerStr t1n) (lowerStr t2n) t1.data t2.data
      (lowerStr jc2) idx hb
    refine ⟨(idx.map (fun vb => (vb.2.map (fun i => t1.data.getD i [])).flatMap
      (fun r1 => (matchingT2 t2.data (lowerStr jc2) vb.1).map
        (fun r2 => joinRow (lowerStr t1n) (lowerStr t2n) r1 r2)))).flatten,
      ?_, ?_⟩
    · unfold selectJoin
      congr 1
      unfold selectJoinRows
      simp only [hg1, hg2, hidx, hjoin]
    · rw [List.length_flatten, List.map_map]
      have hpt : (idx.map (List.length ∘ (fun vb =>
          (vb.2.map (fun i => t1.data.getD i [])).flatMap
            (fun r1 => (matchingT2 t2.data (lowerStr jc2) vb.1).map
              (fun r2 => joinRow (lowerStr t1n) (lowerStr t2n) r1 r2))))) =
          idx.map (fun vb =>
            vb.2.length * (matchingT2 t2.data (lowerStr jc2) vb.1).length) := by
        apply List.map_congr_left
        intro vb _
        simp only [Function.comp_apply]
        rw [List.length_flatMap]
        have hconst : (vb.2.map (fun i => t1.data.getD i [])).map
            (List.length ∘ (fun r1 =>
              (matchingT2 t2.data (lowerStr jc2) vb.1).map
                (fun r2 => joinRow (lowerStr t1n) (lowerStr t2n) r1 r2))) =
            (vb.2.map (fun i => t1.data.getD i [])).map
              (fun _ => (matchingT2 t2.data (lowerStr jc2) vb.1).length) := by
          apply List.map_congr_left
          intro x _
          simp [Function.comp, List.length_map]
        rw [hconst, sum_map_const, List.length_map]
      rw [hpt, idxJoin_card t1.data t2.data (lowerStr jc1) (lowerStr jc2) idx
        hnd h1 h2]
  · intro hidx hpres
    constructor
    · unfold selectJoin
      congr 1
      unfold selectJoinRows
      simp only [hg1, hg2, hidx]
    · exact nestedJoin_length _ _ _ _ _ _ hpres

/-- Witness for the amended C4: the indexed and nested paths on
concrete fixtures. -/
theorem c4_amended_witness :
    (∃ rs, selectJoin dbJoin "u" "v" "a" "c" none = (.ok rs, dbJoin, 0) ∧
      rs.length = pairCount tblJoinL.data tblJoinR.data (lowerStr "a")
        (lowerStr "c")) ∧
    (selectJoin dbJoin "w" "v" "a" "c" none =
      (.ok (nestedJoin (lowerStr "w") (lowerStr "v") tblJoinLN.data
        tblJoinR.data (lowerStr "a") (lowerStr "c")), dbJoin, 0) ∧
     (nestedJoin (lowerStr "w") (lowerStr "v") tblJoinLN.data tblJoinR.data
       (lowerStr "a") (lowerStr "c")).length =
       pairCount tblJoinLN.data tblJoinR.data (lowerStr "a") (lowerStr "c")) := by
  constructor
  · exact (c4_amended dbJoin "u" "v" "a" "c" tblJoinL tblJoinR rfl rfl).1
      [(.int 1, [0, 1]), (.int 2, [2])] rfl (by decide) (by decide) (by decide)
  · exact (c4_amended dbJoin "w" "v" "a" "c" tblJoinLN tblJoinR rfl rfl).2
      rfl (Or.inl (by decide))
